import Mathlib

/-!
Verification of the electrical-grid connection planner.

Shallow embedding of the Python sources:
  * `Batiment.py`            — building entity and priority weights
  * `Infrastructure.py`      — infrastructure-line entity
  * `optimize_grid_connections.py` — proximity resolver and greedy allocator
  * `optimize_with_phases.py`      — phased optimizer (priority + phase partitioner)
  * `analyze_grid_connections.py`  — budgeted connection plan over graph edges

Monetary amounts, times and distances are modelled as exact rationals (`ℚ`);
geometry is an opaque type parameter `γ` together with a caller-supplied
planar distance function, exactly as the spec treats the geometry provider
as a black box.
-/

namespace GridPlan

/-- Building entity, mirroring `Batiment.__init__` in `Batiment.py`. -/
structure Batiment (γ : Type) where
  id_batiment : String
  type_batiment : String
  nb_maisons : ℤ
  geometry : Option γ
  connected : Bool
  connection_cost : ℚ
  connection_time : ℚ
  priority_score : ℚ
  connected_via : Option String
deriving Repr

/-- `Batiment(id, type, nb, geometry=None)` constructor defaults. -/
def mkBatiment (γ : Type) (id_b type_b : String) (nb : ℤ) (geom : Option γ) :
    Batiment γ :=
  { id_batiment := id_b
    type_batiment := type_b
    nb_maisons := nb
    geometry := geom
    connected := false
    connection_cost := 0
    connection_time := 0
    priority_score := 0
    connected_via := none }

/-- `Batiment.TYPE_PRIORITIES` dictionary: exact-key lookup table. -/
def TYPE_PRIORITIES (t : String) : Option ℚ :=
  if t = "hôpital" then some 100
  else if t = "école" then some 50
  else if t = "habitation" then some 10
  else none

/-- `Batiment.calculate_priority`: `TYPE_PRIORITIES.get(type, 1) * nb_maisons`. -/
def calculate_priority {γ : Type} (b : Batiment γ) : Batiment γ :=
  { b with priority_score := (TYPE_PRIORITIES b.type_batiment).getD 1 * (b.nb_maisons : ℚ) }

/-- `Batiment.set_connection_info`: records cost/time/infrastructure id and
sets `connected = True`. -/
def set_connection_info {γ : Type} (b : Batiment γ) (cost time : ℚ)
    (infrastructure_id : String) : Batiment γ :=
  { b with
    connection_cost := cost
    connection_time := time
    connected_via := some infrastructure_id
    connected := true }

/-- `Batiment.get_efficiency_score`: houses per euro, 0 when cost is not positive. -/
def get_efficiency_score {γ : Type} (b : Batiment γ) : ℚ :=
  if 0 < b.connection_cost then (b.nb_maisons : ℚ) / b.connection_cost else 0

/-- Infrastructure-line entity, mirroring `Infrastructure.__init__`. -/
structure Infrastructure (γ : Type) where
  id_infra : String
  type_infra : String
  geometry : Option γ
  length : ℚ
  buildings_connected : List String
  shared : Bool
  cost_per_meter : ℚ
  time_per_meter : ℚ
deriving Repr

/-- `Infrastructure.INFRASTRUCTURE_SPECS`: cost €/m and time h/m per exact type key. -/
def INFRASTRUCTURE_SPECS (t : String) : Option (ℚ × ℚ) :=
  if t = "aerien" then some (500, 2)
  else if t = "semi-aerien" then some (750, 4)
  else if t = "fourreau" then some (900, 5)
  else none

/-- `Infrastructure(id, type, geometry=None)` constructor: specs fall back to
`{'cost': 0, 'time': 0}` for unknown type keys. -/
def mkInfrastructure (γ : Type) (id_i type_i : String) (geom : Option γ) :
    Infrastructure γ :=
  let specs := (INFRASTRUCTURE_SPECS type_i).getD (0, 0)
  { id_infra := id_i
    type_infra := type_i
    geometry := geom
    length := 0
    buildings_connected := []
    shared := false
    cost_per_meter := specs.1
    time_per_meter := specs.2 }

/-- `Infrastructure.add_building`: append the id if absent; set `shared = True`
once more than one building is registered (never reset). -/
def add_building {γ : Type} (infra : Infrastructure γ) (building_id : String) :
    Infrastructure γ :=
  if building_id ∈ infra.buildings_connected then infra
  else
    let l := infra.buildings_connected ++ [building_id]
    { infra with
      buildings_connected := l
      shared := if 1 < l.length then true else infra.shared }

/-! ## Proximity resolver (`GridOptimizer.calculate_connection_costs`) -/

/-- `GridOptimizer.min_connection_cost` (set in `__init__` to 50.0 euros). -/
def min_connection_cost : ℚ := 50

/-- One candidate pair inside the resolver loop: returns
`(cost, time, distance)`.  When both geometries are present the raw planar
distance is clamped to 10 whenever it is `< 1`; when either geometry is
absent a fixed fallback distance of 50 is used. -/
def candidateCostTime {γ : Type} (dist : γ → γ → ℚ) (b : Batiment γ)
    (infra : Infrastructure γ) : ℚ × ℚ × ℚ :=
  match infra.geometry, b.geometry with
  | some gi, some gb =>
      let d0 := dist gb gi
      let d := if d0 < 1 then 10 else d0
      (d * infra.cost_per_meter, d * infra.time_per_meter, d)
  | _, _ => (50 * infra.cost_per_meter, 50 * infra.time_per_meter, 50)

/-- The `(min_cost, best_time, best_infra)` triple a candidate would install. -/
def candTriple {γ : Type} (dist : γ → γ → ℚ) (b : Batiment γ)
    (infra : Infrastructure γ) : ℚ × ℚ × String :=
  ((candidateCostTime dist b infra).1, (candidateCostTime dist b infra).2.1,
    infra.id_infra)

/-- Loop body of the resolver scan: keep the incumbent unless the new
candidate is strictly cheaper (`if cost < min_cost`), so ties resolve to the
first-encountered candidate.  `none` plays the role of the initial
`min_cost = inf`, `best_infra = None` state. -/
def bestFold {γ : Type} (dist : γ → γ → ℚ) (b : Batiment γ)
    (acc : Option (ℚ × ℚ × String)) (infra : Infrastructure γ) :
    Option (ℚ × ℚ × String) :=
  let c := candTriple dist b infra
  match acc with
  | none => some c
  | some best => if c.1 < best.1 then some c else some best

/-- Scan of all infrastructure lines for one building. -/
def bestCandidate {γ : Type} (dist : γ → γ → ℚ) (b : Batiment γ)
    (infras : List (Infrastructure γ)) : Option (ℚ × ℚ × String) :=
  infras.foldl (bestFold dist b) none

/-- Per-building body of `calculate_connection_costs`: if a best candidate was
found, install `connection_cost = max(min_cost, 50)`, `connection_time` and
`connected_via`; otherwise leave the building untouched.  `connected` is never
written here. -/
def resolveBuilding {γ : Type} (dist : γ → γ → ℚ)
    (infras : List (Infrastructure γ)) (b : Batiment γ) : Batiment γ :=
  match bestCandidate dist b infras with
  | none => b
  | some best =>
      { b with
        connection_cost := max best.1 min_connection_cost
        connection_time := best.2.1
        connected_via := some best.2.2 }

/-- The whole resolver pass over the (insertion-ordered) building registry. -/
def calculate_connection_costs {γ : Type} (dist : γ → γ → ℚ)
    (infras : List (Infrastructure γ)) (batiments : List (Batiment γ)) :
    List (Batiment γ) :=
  batiments.map (resolveBuilding dist infras)

/-! ## Greedy allocator (`GridOptimizer.optimize_connections`) -/

/-- A row of `connection_plan` (display-only fields such as
`infrastructure_type` are omitted). -/
structure ConnectionRecord where
  building_id : String
  building_type : String
  nb_houses : ℤ
  infrastructure_id : String
  cost : ℚ
  time : ℚ
  priority_score : ℚ
  efficiency : ℚ
deriving Repr, DecidableEq

/-- Mutable state threaded through the selection loop. -/
structure AllocState (γ : Type) where
  cumulative_cost : ℚ
  cumulative_time : ℚ
  connection_plan : List ConnectionRecord
  infrastructures : List (Infrastructure γ)
  batiments_out : List (Batiment γ)
  buildings_connected : ℕ
  houses_connected : ℤ

/-- `cap is not None and value > cap` (the skip test of the loop). -/
def overCap (cap : Option ℚ) (v : ℚ) : Bool :=
  match cap with
  | none => false
  | some c => decide (c < v)

/-- `self.infrastructures[infra_id].add_building(bat_id)` on the keyed registry. -/
def registerBuilding {γ : Type} (infras : List (Infrastructure γ))
    (infra_id bat_id : String) : List (Infrastructure γ) :=
  infras.map fun i => if i.id_infra = infra_id then add_building i bat_id else i

/-- `(score, building)` pairs for all buildings with a truthy
(non-zero) `connection_cost`; score = `priority_score * (nb_maisons / cost)`. -/
def building_scores {γ : Type} (batiments : List (Batiment γ)) :
    List (ℚ × Batiment γ) :=
  (batiments.filter fun b => b.connection_cost != 0).map fun b =>
    (b.priority_score * ((b.nb_maisons : ℚ) / b.connection_cost), b)

/-- `building_scores.sort(key=score, reverse=True)`. -/
def rankCandidates {γ : Type} (batiments : List (Batiment γ)) :
    List (ℚ × Batiment γ) :=
  (building_scores batiments).mergeSort fun x y => decide (y.1 ≤ x.1)

/-- The `connection_plan` entry appended when a building is accepted. -/
def planRecord {γ : Type} (b : Batiment γ) : ConnectionRecord :=
  { building_id := b.id_batiment
    building_type := b.type_batiment
    nb_houses := b.nb_maisons
    infrastructure_id := b.connected_via.getD ""
    cost := b.connection_cost
    time := b.connection_time
    priority_score := b.priority_score
    efficiency := get_efficiency_score b }

/-- One iteration of the selection loop: skip (with `continue`) when a cap
would be exceeded strictly, otherwise accept the building. -/
def allocStep {γ : Type} (budget max_time : Option ℚ) (st : AllocState γ)
    (cand : ℚ × Batiment γ) : AllocState γ :=
  let b := cand.2
  let new_cost := st.cumulative_cost + b.connection_cost
  let new_time := st.cumulative_time + b.connection_time
  if overCap budget new_cost then
    { st with batiments_out := st.batiments_out ++ [b] }
  else if overCap max_time new_time then
    { st with batiments_out := st.batiments_out ++ [b] }
  else
    let via := b.connected_via.getD ""
    { cumulative_cost := new_cost
      cumulative_time := new_time
      connection_plan := st.connection_plan ++ [planRecord b]
      infrastructures := registerBuilding st.infrastructures via b.id_batiment
      batiments_out := st.batiments_out ++ [{ b with connected := true }]
      buildings_connected := st.buildings_connected + 1
      houses_connected := st.houses_connected + b.nb_maisons }

/-- Initial allocator state. -/
def allocInit {γ : Type} (infras : List (Infrastructure γ)) : AllocState γ :=
  { cumulative_cost := 0
    cumulative_time := 0
    connection_plan := []
    infrastructures := infras
    batiments_out := []
    buildings_connected := 0
    houses_connected := 0 }

/-- `GridOptimizer.optimize_connections`: rank then run the selection loop.
The final `cumulative_cost`/`cumulative_time` are the values stored into
`total_cost`/`total_time`. -/
def optimize_connections {γ : Type} (batiments : List (Batiment γ))
    (infras : List (Infrastructure γ)) (budget max_time : Option ℚ) :
    AllocState γ :=
  (rankCandidates batiments).foldl (allocStep budget max_time) (allocInit infras)

/-! ## `analyze_grid_connections.create_connection_plan` -/

/-- A graph-edge connection candidate of `analyze_grid_connections.py`. -/
structure Conn where
  source : String
  target : String
  cost : ℚ
  connections : ℤ
deriving Repr, DecidableEq

/-- Python truthiness of `if budget and (total_cost + cost) > budget`:
`None` and `0` budgets disable the check. -/
def budgetBreak (budget : Option ℚ) (new_total : ℚ) : Bool :=
  match budget with
  | none => false
  | some b => !(b == 0) && decide (b < new_total)

/-- `create_connection_plan`: accumulate connections in ranked order but
**break** (terminate the scan) at the first connection that would exceed a
truthy budget. -/
def create_connection_plan (budget : Option ℚ) : ℚ → List Conn → List Conn
  | _, [] => []
  | total, c :: rest =>
      if budgetBreak budget (total + c.cost) then []
      else c :: create_connection_plan budget (total + c.cost) rest

/-! ## Phased optimizer (`optimize_with_phases.py`) -/

/-- `k in t` substring test on character lists. -/
def subListAt (k : List Char) : List Char → Bool
  | [] => k.isEmpty
  | c :: rest => k.isPrefixOf (c :: rest) || subListAt k rest

/-- `keyword in label` for strings. -/
def strContains (t k : String) : Bool :=
  subListAt k.data t.data

/-- The hospital mask of `optimize_phases`:
`any(k in t for k in ["hôpital", "hopital", "hospital"])`. -/
def isHospitalLabel (t : String) : Bool :=
  strContains t "hôpital" || strContains t "hopital" || strContains t "hospital"

/-- The `weights` dictionary of `PhasedGridOptimizer._priority`:
exact-key lookup on the (caller-lowercased) type label. -/
def phasedWeights (t : String) : Option ℚ :=
  if t = "hôpital" then some 100
  else if t = "hopital" then some 100
  else if t = "hospital" then some 100
  else if t = "école" then some 50
  else if t = "ecole" then some 50
  else if t = "habitation" then some 10
  else none

/-- `PhasedGridOptimizer._priority`: `weights.get(b_type, 1) * nb`. -/
def phasedPriority (b_type : String) (nb : ℤ) : ℚ :=
  (phasedWeights b_type).getD 1 * (nb : ℚ)

/-- One row of the `results` dataframe built by `calc_costs`. -/
structure PhasedRow where
  rid : String
  btype : String
  nb_maisons : ℤ
  infra_type : String
  total_cost : ℚ
  priority : ℚ
  phase : Option ℕ
deriving Repr, DecidableEq

/-- `PhasedGridOptimizer.PHASES = {1: 0.4, 2: 0.2, 3: 0.2, 4: 0.2}`. -/
def PHASES : List (ℕ × ℚ) := [(1, 2/5), (2, 1/5), (3, 1/5), (4, 1/5)]

/-- `subset[subset["total_cost"].cumsum() <= limit]`: split the pool into the
rows whose cumulative (over the *whole* pool) cost stays `≤ limit` and the
rest, both in pool order. -/
def cumsumSelect (limit : ℚ) : ℚ → List PhasedRow → List PhasedRow × List PhasedRow
  | _, [] => ([], [])
  | acc, r :: rest =>
      let acc' := acc + r.total_cost
      let sel := cumsumSelect limit acc' rest
      if acc' ≤ limit then (r :: sel.1, sel.2) else (sel.1, r :: sel.2)

/-- The phase loop of `optimize_phases`: for each `(phase, pct)` take the
cumsum-selected rows of the remaining pool with `limit = total * pct`,
stamp them with the phase index, and drop them from the pool. -/
def assignPhases (total : ℚ) :
    List (ℕ × ℚ) → List PhasedRow → List (ℕ × List PhasedRow) × List PhasedRow
  | [], pool => ([], pool)
  | (p, pct) :: rest, pool =>
      let sel := cumsumSelect (total * pct) 0 pool
      let next := assignPhases total rest sel.2
      ((p, sel.1.map fun r => { r with phase := some p }) :: next.1, next.2)

/-- Result of `optimize_phases`: the phase-0 hospital rows, the rows of
phases 1..4, and the rows left unassigned (retained with a null phase). -/
structure PhasedResult where
  hospital : List PhasedRow
  buckets : List (ℕ × List PhasedRow)
  unassigned : List PhasedRow
deriving Repr, DecidableEq

/-- `PhasedGridOptimizer.optimize_phases`: hospitals (substring match on the
type label) go to phase 0 unconditionally; the others get
`others["phase"] = None` and are then bucketed by the phase loop against
`total_cost = others["total_cost"].sum()`. -/
def optimize_phases (rows : List PhasedRow) : PhasedResult :=
  let hospital := rows.filter fun r => isHospitalLabel r.btype
  let others := (rows.filter fun r => !isHospitalLabel r.btype).map
    fun r => { r with phase := none }
  let total_cost := (others.map fun r => r.total_cost).sum
  let assigned := assignPhases total_cost PHASES others
  { hospital := hospital.map fun r => { r with phase := some 0 }
    buckets := assigned.1
    unassigned := assigned.2 }

/-- Modelled from the spec: "walk the remaining pool in its current order,
accumulating a phase-local running cost, and move every building into this
phase while the running cost stays ≤ limit; stop at the first building that
would exceed limit and leave it (and all after it) in the pool".  This is the
maximal-prefix selection the spec describes, to be compared with the code's
`cumsumSelect`. -/
def greedyPrefix (limit : ℚ) : ℚ → List PhasedRow → List PhasedRow × List PhasedRow
  | _, [] => ([], [])
  | acc, r :: rest =>
      if acc + r.total_cost ≤ limit then
        let sel := greedyPrefix limit (acc + r.total_cost) rest
        (r :: sel.1, sel.2)
      else ([], r :: rest)

/-- Modelled from the spec: the phase loop with `greedyPrefix` in place of the
cumsum filter (spec-side partition used as refinement target). -/
def phasePartitionSpec (total : ℚ) :
    List (ℕ × ℚ) → List PhasedRow → List (ℕ × List PhasedRow) × List PhasedRow
  | [], pool => ([], pool)
  | (p, pct) :: rest, pool =>
      let sel := greedyPrefix (total * pct) 0 pool
      let next := phasePartitionSpec total rest sel.2
      ((p, sel.1.map fun r => { r with phase := some p }) :: next.1, next.2)

/-- Forget the phase stamp of a row (used to state that partitioning only
relabels phases and never drops or alters rows). -/
def stripPhase (r : PhasedRow) : PhasedRow :=
  { r with phase := none }

/-! ## Concrete fixtures used by witnesses -/

def wDist : Unit → Unit → ℚ := fun _ _ => 3/5

def wDist7 : Unit → Unit → ℚ := fun _ _ => 7

def wBat : Batiment Unit := mkBatiment Unit "b1" "habitation" 2 (some ())

def wInfraAerien : Infrastructure Unit := mkInfrastructure Unit "i1" "aerien" (some ())

def wInfraNoGeom : Infrastructure Unit := mkInfrastructure Unit "i2" "semi-aerien" none

def wInfraAerien2 : Infrastructure Unit := mkInfrastructure Unit "i9" "aerien" (some ())

def wB60a : Batiment Unit :=
  { mkBatiment Unit "a" "habitation" 1 none with
    connection_cost := 60, connection_time := 1,
    connected_via := some "i1", priority_score := 10 }

def wB60b : Batiment Unit :=
  { mkBatiment Unit "b" "habitation" 1 none with
    connection_cost := 60, connection_time := 1,
    connected_via := some "i1", priority_score := 10 }

def wB30 : Batiment Unit :=
  { mkBatiment Unit "c" "habitation" 1 none with
    connection_cost := 30, connection_time := 1,
    connected_via := some "i1", priority_score := 10 }

def wHosp : PhasedRow :=
  ⟨"h1", "hôpital", 1, "aérien", 999, 100, none⟩

def wRow100 : PhasedRow :=
  ⟨"b1", "habitation", 4, "aérien", 100, 40, none⟩

def wRow50 : PhasedRow :=
  ⟨"b2", "habitation", 3, "aérien", 50, 30, none⟩

def wRow250 : PhasedRow :=
  ⟨"b3", "habitation", 2, "aérien", 250, 20, none⟩

/-! ## Helper lemmas -/

/-- `add_building` keeps the connected-buildings list duplicate-free, adds the
id to the set, and keeps `shared` equal to `#ids > 1`. -/
lemma add_building_step {γ : Type} (s : Infrastructure γ) (bid : String)
    (hnd : s.buildings_connected.Nodup)
    (hsh : s.shared = decide (1 < s.buildings_connected.length)) :
    (add_building s bid).buildings_connected.Nodup ∧
      (add_building s bid).buildings_connected.toFinset =
        insert bid s.buildings_connected.toFinset ∧
      (add_building s bid).shared =
        decide (1 < (add_building s bid).buildings_connected.length) := by
  unfold add_building
  by_cases hmem : bid ∈ s.buildings_connected
  · simp only [if_pos hmem]
    refine ⟨hnd, ?_, hsh⟩
    rw [Finset.insert_eq_self.mpr (List.mem_toFinset.mpr hmem)]
  · simp only [if_neg hmem]
    refine ⟨?_, ?_, ?_⟩
    · simp [List.nodup_append, hnd, hmem]
    · ext x
      simp [List.toFinset_append, or_comm]
    · simp only [List.length_append, List.length_singleton]
      rcases Nat.eq_zero_or_pos s.buildings_connected.length with h0 | hpos
      · simp [h0, hsh]
      · have h1 : 1 < s.buildings_connected.length + 1 := by omega
        simp [h1]

/-- Invariant of the whole `add_building` call sequence. -/
lemma add_building_foldl {γ : Type} (calls : List String) :
    ∀ (s : Infrastructure γ), s.buildings_connected.Nodup →
      s.shared = decide (1 < s.buildings_connected.length) →
      (calls.foldl add_building s).buildings_connected.Nodup ∧
        (calls.foldl add_building s).buildings_connected.toFinset =
          s.buildings_connected.toFinset ∪ calls.toFinset ∧
        (calls.foldl add_building s).shared =
          decide (1 < (calls.foldl add_building s).buildings_connected.length) := by
  induction calls with
  | nil => intro s hnd hsh; simpa using ⟨hnd, hsh⟩
  | cons bid rest ih =>
      intro s hnd hsh
      obtain ⟨hnd', hset', hsh'⟩ := add_building_step s bid hnd hsh
      obtain ⟨h1, h2, h3⟩ := ih (add_building s bid) hnd' hsh'
      refine ⟨h1, ?_, h3⟩
      rw [List.foldl_cons] at *
      rw [h2, hset']
      ext x
      simp [Finset.mem_union, Finset.mem_insert, or_assoc]

/-- An over-cap candidate is skipped: the loop state is unchanged except that
the candidate building is carried through unconnected. -/
lemma allocStep_skip {γ : Type} (budget max_time : Option ℚ)
    (st : AllocState γ) (c : ℚ × Batiment γ)
    (h : overCap budget (st.cumulative_cost + c.2.connection_cost) = true ∨
      overCap max_time (st.cumulative_time + c.2.connection_time) = true) :
    allocStep budget max_time st c =
      { st with batiments_out := st.batiments_out ++ [c.2] } := by
  unfold allocStep
  rcases h with h | h
  · simp [h]
  · by_cases h1 :
      overCap budget (st.cumulative_cost + c.2.connection_cost) = true
    · simp [h1]
    · simp [h1, h]

/-- A candidate passing both cap checks is accepted: its record is appended. -/
lemma allocStep_accept {γ : Type} (budget max_time : Option ℚ)
    (st : AllocState γ) (c : ℚ × Batiment γ)
    (h1 : overCap budget (st.cumulative_cost + c.2.connection_cost) = false)
    (h2 : overCap max_time (st.cumulative_time + c.2.connection_time) = false) :
    (allocStep budget max_time st c).connection_plan =
      st.connection_plan ++ [planRecord c.2] := by
  unfold allocStep
  simp [h1, h2]

/-- Each loop iteration either keeps the plan or appends one record. -/
lemma allocStep_plan {γ : Type} (budget max_time : Option ℚ)
    (st : AllocState γ) (c : ℚ × Batiment γ) :
    (allocStep budget max_time st c).connection_plan = st.connection_plan ∨
      (allocStep budget max_time st c).connection_plan =
        st.connection_plan ++ [planRecord c.2] := by
  unfold allocStep
  by_cases h1 : overCap budget (st.cumulative_cost + c.2.connection_cost) = true
  · left; simp [h1]
  · by_cases h2 :
      overCap max_time (st.cumulative_time + c.2.connection_time) = true
    · left; simp [h1, h2]
    · right; simp [h1, h2]

/-- The accumulated plan only grows during the selection loop. -/
lemma plan_monotone {γ : Type} (budget max_time : Option ℚ) :
    ∀ (l : List (ℚ × Batiment γ)) (st : AllocState γ),
      ∃ suffix, (l.foldl (allocStep budget max_time) st).connection_plan =
        st.connection_plan ++ suffix := by
  intro l
  induction l with
  | nil => intro st; exact ⟨[], by simp⟩
  | cons c rest ih =>
      intro st
      rw [List.foldl_cons]
      obtain ⟨suffix, hs⟩ := ih (allocStep budget max_time st c)
      rcases allocStep_plan budget max_time st c with hp | hp
      · exact ⟨suffix, by rw [hs, hp]⟩
      · exact ⟨planRecord c.2 :: suffix, by rw [hs, hp]; simp⟩

/-- The full state produced by accepting a candidate. -/
lemma allocStep_accept_state {γ : Type} (budget max_time : Option ℚ)
    (st : AllocState γ) (c : ℚ × Batiment γ)
    (h1 : overCap budget (st.cumulative_cost + c.2.connection_cost) = false)
    (h2 : overCap max_time (st.cumulative_time + c.2.connection_time) = false) :
    allocStep budget max_time st c =
      { cumulative_cost := st.cumulative_cost + c.2.connection_cost
        cumulative_time := st.cumulative_time + c.2.connection_time
        connection_plan := st.connection_plan ++ [planRecord c.2]
        infrastructures := registerBuilding st.infrastructures
          (c.2.connected_via.getD "") c.2.id_batiment
        batiments_out := st.batiments_out ++ [{ c.2 with connected := true }]
        buildings_connected := st.buildings_connected + 1
        houses_connected := st.houses_connected + c.2.nb_maisons } := by
  unfold allocStep
  simp [h1, h2]

/-- A false cap check means the value is within the cap. -/
lemma overCap_false_le {cap : Option ℚ} {v c : ℚ} (h : overCap cap v = false)
    (hc : cap = some c) : v ≤ c := by
  subst hc
  simp [overCap] at h
  exact h

/-- Loop invariant of the selection loop: the running totals are the sums of
the accepted records, and every non-empty prefix of the plan stays within the
configured caps. -/
def AllocInv {γ : Type} (budget max_time : Option ℚ) (st : AllocState γ) :
    Prop :=
  st.cumulative_cost = (st.connection_plan.map (fun r => r.cost)).sum ∧
    st.cumulative_time = (st.connection_plan.map (fun r => r.time)).sum ∧
    (∀ bb, budget = some bb → ∀ n, n ≤ st.connection_plan.length → 0 < n →
      ((st.connection_plan.take n).map (fun r => r.cost)).sum ≤ bb) ∧
    (∀ tt, max_time = some tt → ∀ n, n ≤ st.connection_plan.length → 0 < n →
      ((st.connection_plan.take n).map (fun r => r.time)).sum ≤ tt)

/-- Each loop iteration preserves the cap invariant. -/
lemma allocStep_preserves_inv {γ : Type} (budget max_time : Option ℚ)
    (st : AllocState γ) (c : ℚ × Batiment γ)
    (h : AllocInv budget max_time st) :
    AllocInv budget max_time (allocStep budget max_time st c) := by
  obtain ⟨hc, ht, hbp, htp⟩ := h
  by_cases h1 : overCap budget (st.cumulative_cost + c.2.connection_cost) = true
  · rw [allocStep_skip budget max_time st c (Or.inl h1)]
    exact ⟨hc, ht, hbp, htp⟩
  · by_cases h2 :
      overCap max_time (st.cumulative_time + c.2.connection_time) = true
    · rw [allocStep_skip budget max_time st c (Or.inr h2)]
      exact ⟨hc, ht, hbp, htp⟩
    · have h1' := Bool.eq_false_iff.mpr h1
      have h2' := Bool.eq_false_iff.mpr h2
      rw [allocStep_accept_state budget max_time st c h1' h2']
      refine ⟨?_, ?_, ?_, ?_⟩
      · simp [hc, planRecord]
      · simp [ht, planRecord]
      · intro bb hbb n hn hpos
        simp only [List.length_append, List.length_singleton] at hn
        by_cases hn' : n ≤ st.connection_plan.length
        · rw [List.take_append_of_le_length hn']
          exact hbp bb hbb n hn' hpos
        · have hn2 : n = st.connection_plan.length + 1 := by omega
          have hfull :
              (st.connection_plan ++ [planRecord c.2]).take n =
                st.connection_plan ++ [planRecord c.2] := by
            apply List.take_of_length_le
            simp [hn2]
          rw [hfull]
          have hle := overCap_false_le h1' hbb
          rw [hc] at hle
          simpa [planRecord] using hle
      · intro tt htt n hn hpos
        simp only [List.length_append, List.length_singleton] at hn
        by_cases hn' : n ≤ st.connection_plan.length
        · rw [List.take_append_of_le_length hn']
          exact htp tt htt n hn' hpos
        · have hn2 : n = st.connection_plan.length + 1 := by omega
          have hfull :
              (st.connection_plan ++ [planRecord c.2]).take n =
                st.connection_plan ++ [planRecord c.2] := by
            apply List.take_of_length_le
            simp [hn2]
          rw [hfull]
          have hle := overCap_false_le h2' htt
          rw [ht] at hle
          simpa [planRecord] using hle

/-- The invariant holds after the whole selection loop. -/
lemma foldl_preserves_inv {γ : Type} (budget max_time : Option ℚ)
    (l : List (ℚ × Batiment γ)) :
    ∀ st : AllocState γ, AllocInv budget max_time st →
      AllocInv budget max_time (l.foldl (allocStep budget max_time) st) := by
  induction l with
  | nil => intro st h; exact h
  | cons c rest ih =>
      intro st h
      rw [List.foldl_cons]
      exact ih _ (allocStep_preserves_inv budget max_time st c h)

/-- Characterization of the resolver scan from an incumbent `acc`: the scan
always yields a result; the result is a global minimum of candidate costs;
and the result is either the surviving incumbent (when nothing beats it
strictly) or the first strictly-better candidate position. -/
lemma bestScan_some {γ : Type} (dist : γ → γ → ℚ) (b : Batiment γ) :
    ∀ (l : List (Infrastructure γ)) (acc : ℚ × ℚ × String),
      ∃ res, l.foldl (bestFold dist b) (some acc) = some res ∧
        res.1 ≤ acc.1 ∧
        (∀ i ∈ l, res.1 ≤ (candidateCostTime dist b i).1) ∧
        ((res = acc ∧ ∀ i ∈ l, acc.1 ≤ (candidateCostTime dist b i).1) ∨
          (∃ k, ∃ hk : k < l.length,
            res = candTriple dist b (l.get ⟨k, hk⟩) ∧ res.1 < acc.1 ∧
            ∀ j, ∀ hj : j < l.length, j < k →
              res.1 < (candidateCostTime dist b (l.get ⟨j, hj⟩)).1)) := by
  intro l
  induction l with
  | nil =>
      intro acc
      exact ⟨acc, rfl, le_refl _, by simp, Or.inl ⟨rfl, by simp⟩⟩
  | cons i rest ih =>
      intro acc
      rw [List.foldl_cons]
      by_cases hlt : (candTriple dist b i).1 < acc.1
      · have hstep : bestFold dist b (some acc) i = some (candTriple dist b i) := by
          simp only [bestFold]
          rw [if_pos hlt]
        rw [hstep]
        obtain ⟨res, hres, hle, hmin, hcase⟩ := ih (candTriple dist b i)
        refine ⟨res, hres, hle.trans (le_of_lt hlt), ?_, ?_⟩
        · intro x hx
          rcases List.mem_cons.mp hx with h | h
          · subst h; exact hle
          · exact hmin x h
        · rcases hcase with ⟨heq, _⟩ | ⟨k, hk, hres2, hlt2, hfirst⟩
          · right
            refine ⟨0, by simp, ?_, ?_, ?_⟩
            · rw [heq]; simp
            · rw [heq]; exact hlt
            · intro j hj hj0; omega
          · right
            refine ⟨k + 1, by simpa using Nat.succ_lt_succ hk, ?_, hlt2.trans hlt, ?_⟩
            · simpa using hres2
            · intro j hj hjk
              cases j with
              | zero => simpa using hlt2
              | succ j' =>
                  have hj' : j' < rest.length := by simpa using hj
                  have h := hfirst j' hj' (by omega)
                  simpa using h
      · have hstep : bestFold dist b (some acc) i = some acc := by
          simp only [bestFold]
          rw [if_neg hlt]
        rw [hstep]
        push_neg at hlt
        have hi_ge : acc.1 ≤ (candidateCostTime dist b i).1 := hlt
        obtain ⟨res, hres, hle, hmin, hcase⟩ := ih acc
        refine ⟨res, hres, hle, ?_, ?_⟩
        · intro x hx
          rcases List.mem_cons.mp hx with h | h
          · subst h; exact hle.trans hi_ge
          · exact hmin x h
        · rcases hcase with ⟨heq, hall⟩ | ⟨k, hk, hres2, hlt2, hfirst⟩
          · left
            refine ⟨heq, ?_⟩
            intro x hx
            rcases List.mem_cons.mp hx with h | h
            · subst h; exact hi_ge
            · exact hall x h
          · right
            refine ⟨k + 1, by simpa using Nat.succ_lt_succ hk, ?_, hlt2, ?_⟩
            · simpa using hres2
            · intro j hj hjk
              cases j with
              | zero => simpa using lt_of_lt_of_le hlt2 hi_ge
              | succ j' =>
                  have hj' : j' < rest.length := by simpa using hj
                  have h := hfirst j' hj' (by omega)
                  simpa using h

/-- With at least one infrastructure line the scan finds a best candidate, and
that candidate is the first one achieving the minimal candidate cost. -/
lemma bestCandidate_cons_spec {γ : Type} (dist : γ → γ → ℚ) (b : Batiment γ)
    (i : Infrastructure γ) (rest : List (Infrastructure γ)) :
    ∃ res, bestCandidate dist b (i :: rest) = some res ∧
      (∃ k, ∃ hk : k < (i :: rest).length,
        res = candTriple dist b ((i :: rest).get ⟨k, hk⟩) ∧
        (∀ x ∈ i :: rest, res.1 ≤ (candidateCostTime dist b x).1) ∧
        ∀ j, ∀ hj : j < (i :: rest).length, j < k →
          res.1 < (candidateCostTime dist b ((i :: rest).get ⟨j, hj⟩)).1) := by
  obtain ⟨res, hres, hle, hmin, hcase⟩ := bestScan_some dist b rest (candTriple dist b i)
  have hfold : bestCandidate dist b (i :: rest) = some res := by
    unfold bestCandidate
    rw [List.foldl_cons]
    have : bestFold dist b none i = some (candTriple dist b i) := rfl
    rw [this]
    exact hres
  refine ⟨res, hfold, ?_⟩
  rcases hcase with ⟨heq, hall⟩ | ⟨k, hk, hres2, hlt2, hfirst⟩
  · refine ⟨0, by simp, by rw [heq]; simp, ?_, ?_⟩
    · intro x hx
      rcases List.mem_cons.mp hx with h | h
      · subst h; exact hle
      · exact hmin x h
    · intro j hj hj0; omega
  · refine ⟨k + 1, by simpa using Nat.succ_lt_succ hk, by simpa using hres2, ?_, ?_⟩
    · intro x hx
      rcases List.mem_cons.mp hx with h | h
      · subst h; exact hle
      · exact hmin x h
    · intro j hj hjk
      cases j with
      | zero => simpa using hlt2
      | succ j' =>
          have hj' : j' < rest.length := by simpa using hj
          have h := hfirst j' hj' (by omega)
          simpa using h

/-! ## Claim theorems -/

/-- C1: whenever a budget is configured, every accepted record satisfies
`cumulative_cost_before + record.cost ≤ budget` (equivalently, every
non-empty prefix of the plan has total cost ≤ budget), and the final
`total_cost` (the final cumulative cost) never strictly exceeds a
non-negative budget; symmetrically for the `max_time` cap. -/
theorem greedy_allocator_respects_caps {γ : Type}
    (batiments : List (Batiment γ)) (infras : List (Infrastructure γ))
    (budget max_time : Option ℚ) :
    let st := optimize_connections batiments infras budget max_time
    (∀ bb, budget = some bb →
      (∀ n, n ≤ st.connection_plan.length → 0 < n →
        ((st.connection_plan.take n).map (fun r => r.cost)).sum ≤ bb) ∧
      (0 ≤ bb → st.cumulative_cost ≤ bb)) ∧
    (∀ tt, max_time = some tt →
      (∀ n, n ≤ st.connection_plan.length → 0 < n →
        ((st.connection_plan.take n).map (fun r => r.time)).sum ≤ tt) ∧
      (0 ≤ tt → st.cumulative_time ≤ tt)) := by
  intro st
  have hinit : AllocInv budget max_time (allocInit infras (γ := γ)) := by
    refine ⟨rfl, rfl, ?_, ?_⟩ <;>
      · intro x hx n hn hpos
        simp [allocInit] at hn
        omega
  have hinv : AllocInv budget max_time st :=
    foldl_preserves_inv budget max_time (rankCandidates batiments)
      (allocInit infras) hinit
  obtain ⟨hc, ht, hbp, htp⟩ := hinv
  constructor
  · intro bb hbb
    refine ⟨hbp bb hbb, ?_⟩
    intro hbb0
    rw [hc]
    rcases Nat.eq_zero_or_pos st.connection_plan.length with h0 | hpos
    · rw [List.length_eq_zero] at h0
      simpa [h0] using hbb0
    · have h := hbp bb hbb st.connection_plan.length (le_refl _) hpos
      rwa [List.take_length] at h
  · intro tt htt
    refine ⟨htp tt htt, ?_⟩
    intro htt0
    rw [ht]
    rcases Nat.eq_zero_or_pos st.connection_plan.length with h0 | hpos
    · rw [List.length_eq_zero] at h0
      simpa [h0] using htt0
    · have h := htp tt htt st.connection_plan.length (le_refl _) hpos
      rwa [List.take_length] at h

/-- C1 witness: three candidate buildings of costs 60, 60 and 30 under budget
100 — the final total cost stays within the budget. -/
theorem greedy_allocator_respects_caps_witness :
    (0 : ℚ) ≤ 100 ∧
      (optimize_connections [wB60a, wB60b, wB30] [wInfraAerien]
          (some 100) none).cumulative_cost ≤ 100 :=
  ⟨by norm_num,
    ((greedy_allocator_respects_caps [wB60a, wB60b, wB30] [wInfraAerien]
        (some 100) none).1 100 rfl).2 (by norm_num)⟩

/-- C2 (amended): in `GridOptimizer.optimize_connections` an over-cap
candidate is skipped and the scan continues with the next ranked candidate,
and any candidate passing both cap checks is accepted (its record reaches the
final plan) even if earlier, higher-ranked candidates were skipped; however,
`create_connection_plan` in `analyze_grid_connections.py` *terminates* the
scan at the first connection that would exceed a non-zero budget. -/
theorem skip_and_continue_amended (γ : Type) :
    (∀ (budget max_time : Option ℚ) (st : AllocState γ) (c : ℚ × Batiment γ)
        (rest : List (ℚ × Batiment γ)),
        (overCap budget (st.cumulative_cost + c.2.connection_cost) = true ∨
          overCap max_time (st.cumulative_time + c.2.connection_time) = true) →
        (c :: rest).foldl (allocStep budget max_time) st =
          rest.foldl (allocStep budget max_time)
            { st with batiments_out := st.batiments_out ++ [c.2] }) ∧
      (∀ (budget max_time : Option ℚ) (st : AllocState γ)
          (c : ℚ × Batiment γ) (rest : List (ℚ × Batiment γ)),
          overCap budget (st.cumulative_cost + c.2.connection_cost) = false →
          overCap max_time (st.cumulative_time + c.2.connection_time) = false →
          planRecord c.2 ∈
            ((c :: rest).foldl (allocStep budget max_time) st).connection_plan) ∧
      (∀ (b total : ℚ) (c : Conn) (rest : List Conn), b ≠ 0 →
          b < total + c.cost →
          create_connection_plan (some b) total (c :: rest) = []) := by
  refine ⟨?_, ?_, ?_⟩
  · intro budget max_time st c rest h
    rw [List.foldl_cons, allocStep_skip budget max_time st c h]
  · intro budget max_time st c rest h1 h2
    rw [List.foldl_cons]
    obtain ⟨suffix, hs⟩ :=
      plan_monotone budget max_time rest (allocStep budget max_time st c)
    rw [hs, allocStep_accept budget max_time st c h1 h2]
    simp
  · intro b total c rest hne hlt
    have hb : budgetBreak (some b) (total + c.cost) = true := by
      simp [budgetBreak, hne, hlt]
    simp [create_connection_plan, hb]

/-- C2 counterexample: with budget 100 and ranked connections of cost 150 then
50, `create_connection_plan` returns the empty plan — the scan stops at the
first over-budget candidate even though the later candidate (cost 50) still
fits within the cap, so the later fitting candidate is *not* accepted. -/
theorem analyze_plan_break_counterexample :
    create_connection_plan (some 100) 0
        [{ source := "a", target := "b", cost := 150, connections := 3 },
          { source := "b", target := "c", cost := 50, connections := 2 }] =
        [] ∧
      (0 : ℚ) + 50 ≤ 100 := by
  constructor
  · have hb : budgetBreak (some 100) (150 : ℚ) = true := by
      norm_num [budgetBreak]
    simp [create_connection_plan, hb]
  · norm_num

/-- C2 amended-theorem witness: the break conjunct applied at budget 100 and a
first connection of cost 150. -/
theorem skip_and_continue_amended_witness :
    create_connection_plan (some 100) 0
        [{ source := "a", target := "b", cost := 150, connections := 3 }] = [] :=
  (skip_and_continue_amended Unit).2.2 100 0
    { source := "a", target := "b", cost := 150, connections := 3 } []
    (by norm_num) (by norm_num)

/-- C7: after any sequence of `add_building` calls starting from a freshly
constructed `Infrastructure`, the `shared` flag equals
`(number of distinct registered building ids) > 1`, the registered list holds
exactly the distinct ids, and once `shared` is true after a prefix of the
calls it stays true for the whole sequence. -/
theorem shared_iff_two_distinct (γ : Type) (id_i type_i : String)
    (geom : Option γ) (calls : List String) :
    (calls.foldl add_building (mkInfrastructure γ id_i type_i geom)).shared =
        decide (1 < calls.toFinset.card) ∧
      (calls.foldl add_building
          (mkInfrastructure γ id_i type_i geom)).buildings_connected.length =
        calls.toFinset.card ∧
      (∀ pre suf, calls = pre ++ suf →
        (pre.foldl add_building (mkInfrastructure γ id_i type_i geom)).shared = true →
        (calls.foldl add_building (mkInfrastructure γ id_i type_i geom)).shared =
          true) := by
  have base : ∀ (l : List String),
      (l.foldl add_building (mkInfrastructure γ id_i type_i geom)).shared =
          decide (1 < l.toFinset.card) ∧
        (l.foldl add_building
            (mkInfrastructure γ id_i type_i geom)).buildings_connected.length =
          l.toFinset.card := by
    intro l
    obtain ⟨hnd, hset, hsh⟩ := add_building_foldl l
      (mkInfrastructure γ id_i type_i geom) (by simp [mkInfrastructure])
      (by simp [mkInfrastructure])
    have hcard :
        (l.foldl add_building
            (mkInfrastructure γ id_i type_i geom)).buildings_connected.length =
          l.toFinset.card := by
      rw [← List.toFinset_card_of_nodup hnd, hset]
      simp [mkInfrastructure]
    exact ⟨by rw [hsh, hcard], hcard⟩
  refine ⟨(base calls).1, (base calls).2, ?_⟩
  intro pre suf hsplit hpre
  rw [(base calls).1]
  rw [(base pre).1] at hpre
  have hsub : pre.toFinset ⊆ calls.toFinset := by
    intro x hx
    rw [hsplit, List.toFinset_append]
    exact Finset.mem_union_left _ hx
  have := Finset.card_le_card hsub
  simp only [decide_eq_true_eq] at hpre ⊢
  omega

/-- C7 witness: registering ids a, b, a makes the line shared with two
distinct registered buildings, and sharedness persists from the a, b prefix. -/
theorem shared_iff_two_distinct_witness :
    ((["a", "b", "a"] : List String).foldl add_building
        (mkInfrastructure Unit "i1" "aerien" none)).shared = true :=
  (shared_iff_two_distinct Unit "i1" "aerien" none ["a", "b", "a"]).2.2
    ["a", "b"] ["a"] rfl (by decide)

/-- C9 (amended): the proximity resolver never touches the `connected` flag —
it writes `connection_cost`, `connection_time` and `connected_via` directly —
while the entity-model operation `set_connection_info` (which records exactly
cost, time and infrastructure id) does set `connected = true` as a side
effect; it is simply never invoked by the resolver. -/
theorem resolver_preserves_connected (γ : Type) :
    (∀ (dist : γ → γ → ℚ) (infras : List (Infrastructure γ)) (b : Batiment γ),
        (resolveBuilding dist infras b).connected = b.connected) ∧
      (∀ (b : Batiment γ) (cost time : ℚ) (iid : String),
        (set_connection_info b cost time iid).connected = true) := by
  constructor
  · intro dist infras b
    unfold resolveBuilding
    cases bestCandidate dist b infras <;> rfl
  · intro b cost time iid
    rfl

/-- C9 counterexample: the claim that no entity-model operation recording a
building's cost, time and infrastructure id sets `connected` to true is false:
`set_connection_info` flips `connected` from false to true. -/
theorem set_connection_info_counterexample :
    (mkBatiment Unit "b1" "habitation" 1 none).connected = false ∧
      (set_connection_info (mkBatiment Unit "b1" "habitation" 1 none)
          120 4 "i1").connected = true := by
  exact ⟨rfl, rfl⟩

/-- C5 counterexample: a label that merely *contains* a hospital keyword gets
weight 1, not 100, in both priority engines — matching is exact-key lookup,
not substring/accent-insensitive. -/
theorem priority_substring_counterexample :
    isHospitalLabel "hôpital central" = true ∧
      (calculate_priority
          (mkBatiment Unit "b1" "hôpital central" 2 none)).priority_score = 2 ∧
      phasedPriority "hôpital central" 2 = 2 ∧
      ((2 : ℚ) ≠ 100 * 2) := by
  refine ⟨by decide, ?_, ?_, by norm_num⟩
  · simp [calculate_priority, mkBatiment, TYPE_PRIORITIES]
  · simp [phasedPriority, phasedWeights]

/-- C5 (amended): both priority engines resolve the type label by *exact*
dictionary lookup (case- and accent-sensitive, no substring matching):
`Batiment.calculate_priority` maps exactly hôpital→100, école→50,
habitation→10, anything else→1; `PhasedGridOptimizer._priority` maps the
exact (caller-lowercased) label hôpital/hopital/hospital→100, école/ecole→50,
habitation→10, anything else→1; the score is the weight times the house
count. -/
theorem priority_exact_lookup (γ : Type) (geom : Option γ) (idb t : String)
    (nb : ℤ) :
    ((t = "hôpital" →
        (calculate_priority (mkBatiment γ idb t nb geom)).priority_score =
          100 * nb) ∧
      (t = "école" →
        (calculate_priority (mkBatiment γ idb t nb geom)).priority_score =
          50 * nb) ∧
      (t = "habitation" →
        (calculate_priority (mkBatiment γ idb t nb geom)).priority_score =
          10 * nb) ∧
      (t ≠ "hôpital" → t ≠ "école" → t ≠ "habitation" →
        (calculate_priority (mkBatiment γ idb t nb geom)).priority_score =
          nb)) ∧
      ((t = "hôpital" ∨ t = "hopital" ∨ t = "hospital" →
          phasedPriority t nb = 100 * nb) ∧
        (t = "école" ∨ t = "ecole" → phasedPriority t nb = 50 * nb) ∧
        (t = "habitation" → phasedPriority t nb = 10 * nb) ∧
        (t ≠ "hôpital" → t ≠ "hopital" → t ≠ "hospital" → t ≠ "école" →
          t ≠ "ecole" → t ≠ "habitation" → phasedPriority t nb = nb)) := by
  refine ⟨⟨?_, ?_, ?_, ?_⟩, ⟨?_, ?_, ?_, ?_⟩⟩ <;>
    intro h
  · simp [calculate_priority, mkBatiment, TYPE_PRIORITIES, h]
  · simp [calculate_priority, mkBatiment, TYPE_PRIORITIES, h]
  · simp [calculate_priority, mkBatiment, TYPE_PRIORITIES, h]
  · intro h2 h3
    simp [calculate_priority, mkBatiment, TYPE_PRIORITIES, h, h2, h3]
  · rcases h with h | h | h <;> simp [phasedPriority, phasedWeights, h]
  · rcases h with h | h <;> simp [phasedPriority, phasedWeights, h]
  · simp [phasedPriority, phasedWeights, h]
  · intro h2 h3 h4 h5 h6
    simp [phasedPriority, phasedWeights, h, h2, h3, h4, h5, h6]

/-- C5 amended-theorem witness: the exact label hôpital with 3 houses scores
300 in `calculate_priority`. -/
theorem priority_exact_lookup_witness :
    (calculate_priority
        (mkBatiment Unit "b1" "hôpital" 3 none)).priority_score = 100 * 3 :=
  (priority_exact_lookup Unit none "b1" "hôpital" 3).1.1 rfl

/-- C4: when the resolver finds a best candidate, it is an actual candidate of
the scanned collection achieving the minimal candidate cost, and it is the
*first* such candidate in iteration order (every earlier candidate is
strictly more expensive), making the choice deterministic; when either
geometry of a pair is absent, the fixed fallback distance 50 is used
uniformly for that pair; the chosen line's id is stored in `connected_via`. -/
theorem resolver_selects_first_minimum {γ : Type} (dist : γ → γ → ℚ)
    (b : Batiment γ) (infras : List (Infrastructure γ)) (res : ℚ × ℚ × String)
    (h : bestCandidate dist b infras = some res) :
    (∃ k, ∃ hk : k < infras.length,
      res = candTriple dist b (infras.get ⟨k, hk⟩) ∧
      (∀ x ∈ infras, res.1 ≤ (candidateCostTime dist b x).1) ∧
      ∀ j, ∀ hj : j < infras.length, j < k →
        res.1 < (candidateCostTime dist b (infras.get ⟨j, hj⟩)).1) ∧
    (∀ i : Infrastructure γ, b.geometry = none ∨ i.geometry = none →
      (candidateCostTime dist b i).1 = 50 * i.cost_per_meter ∧
      (candidateCostTime dist b i).2.1 = 50 * i.time_per_meter) ∧
    (resolveBuilding dist infras b).connected_via = some res.2.2 := by
  refine ⟨?_, ?_, ?_⟩
  · cases infras with
    | nil => simp [bestCandidate] at h
    | cons i rest =>
        obtain ⟨res', hres', hspec⟩ := bestCandidate_cons_spec dist b i rest
        rw [hres'] at h
        injection h with h
        subst h
        exact hspec
  · intro i hi
    rcases hi with hb | hig
    · cases hgi : i.geometry <;> simp [candidateCostTime, hb, hgi]
    · cases hgb : b.geometry <;> simp [candidateCostTime, hig, hgb]
  · unfold resolveBuilding
    rw [h]

/-- C4 witness: two aerial lines at equal distance 7 tie on candidate cost
3500; the first-encountered line i1 is selected. -/
theorem resolver_selects_first_minimum_witness :
    (resolveBuilding wDist7 [wInfraAerien, wInfraAerien2] wBat).connected_via =
      some "i1" := by
  have hb : bestCandidate wDist7 wBat [wInfraAerien, wInfraAerien2] =
      some (3500, 14, "i1") := by
    norm_num [bestCandidate, bestFold, candTriple, candidateCostTime, wDist7,
      wBat, wInfraAerien, wInfraAerien2, mkBatiment, mkInfrastructure,
      INFRASTRUCTURE_SPECS]
  exact (resolver_selects_first_minimum wDist7 wBat _ _ hb).2.2

/-- Every record appended during the loop carries a non-zero cost, provided
all ranked candidates do. -/
lemma plan_costs_nonzero {γ : Type} (budget max_time : Option ℚ) :
    ∀ (l : List (ℚ × Batiment γ)) (st : AllocState γ),
      (∀ p ∈ l, p.2.connection_cost ≠ 0) →
      (∀ r ∈ st.connection_plan, r.cost ≠ 0) →
      ∀ r ∈ (l.foldl (allocStep budget max_time) st).connection_plan,
        r.cost ≠ 0 := by
  intro l
  induction l with
  | nil => intro st _ hst; simpa using hst
  | cons c rest ih =>
      intro st hl hst
      rw [List.foldl_cons]
      apply ih
      · intro p hp; exact hl p (List.mem_cons_of_mem _ hp)
      · intro r hr
        rcases allocStep_plan budget max_time st c with hp | hp
        · rw [hp] at hr; exact hst r hr
        · rw [hp] at hr
          rcases List.mem_append.mp hr with hmem | hmem
          · exact hst r hmem
          · rw [List.mem_singleton] at hmem
            subst hmem
            simpa [planRecord] using hl c (List.mem_cons_self _ _)

/-- C8: a building with no resolved connection cost is harmless downstream —
an empty infrastructure set leaves the building untouched (cost stays 0);
every ranked candidate has a non-zero cost (so the efficiency division never
has a zero divisor); a cost-0 building never appears among the ranked
candidates; every record of the final plan has non-zero cost; and every
building resolved against a non-empty infrastructure set gets
`connection_cost ≥ min_connection_cost = 50`. -/
theorem unresolved_buildings_excluded {γ : Type} (dist : γ → γ → ℚ) :
    (∀ b : Batiment γ, resolveBuilding dist [] b = b) ∧
      (∀ (batiments : List (Batiment γ)) (p : ℚ × Batiment γ),
        p ∈ rankCandidates batiments → p.2.connection_cost ≠ 0) ∧
      (∀ (batiments : List (Batiment γ)) (b : Batiment γ),
        b.connection_cost = 0 → ∀ s, (s, b) ∉ rankCandidates batiments) ∧
      (∀ (batiments : List (Batiment γ)) (infras : List (Infrastructure γ))
          (budget max_time : Option ℚ) (r : ConnectionRecord),
        r ∈ (optimize_connections batiments infras
            budget max_time).connection_plan →
        r.cost ≠ 0) ∧
      (∀ (infras : List (Infrastructure γ)) (b : Batiment γ), infras ≠ [] →
        min_connection_cost ≤ (resolveBuilding dist infras b).connection_cost) := by
  have hscores : ∀ (batiments : List (Batiment γ)) (p : ℚ × Batiment γ),
      p ∈ building_scores batiments → p.2.connection_cost ≠ 0 := by
    intro batiments p hp
    simp only [building_scores, List.mem_map, List.mem_filter] at hp
    obtain ⟨b, ⟨_, hcost⟩, hpb⟩ := hp
    rw [← hpb]
    simpa using hcost
  have hrank : ∀ (batiments : List (Batiment γ)) (p : ℚ × Batiment γ),
      p ∈ rankCandidates batiments → p.2.connection_cost ≠ 0 := by
    intro batiments p hp
    exact hscores batiments p
      ((List.mergeSort_perm (building_scores batiments) _).mem_iff.mp hp)
  refine ⟨?_, hrank, ?_, ?_, ?_⟩
  · intro b; rfl
  · intro batiments b hb s hmem
    exact hrank batiments (s, b) hmem hb
  · intro batiments infras budget max_time r hr
    exact plan_costs_nonzero budget max_time (rankCandidates batiments)
      (allocInit infras) (fun p hp => hrank batiments p hp) (by simp [allocInit])
      r hr
  · intro infras b hne
    cases infras with
    | nil => exact absurd rfl hne
    | cons i rest =>
        obtain ⟨res, hres, _⟩ := bestCandidate_cons_spec dist b i rest
        unfold resolveBuilding
        rw [hres]
        exact le_max_right _ _

/-- C8 witness: a building resolved against a single aerial line gets a cost
at or above the 50-euro floor. -/
theorem unresolved_buildings_excluded_witness :
    min_connection_cost ≤
      (resolveBuilding wDist [wInfraAerien] wBat).connection_cost :=
  (unresolved_buildings_excluded wDist).2.2.2.2 [wInfraAerien] wBat (by simp)

/-- C3: with both geometries present and a raw planar distance strictly below
1, the candidate is costed with distance 10; the resolver stores
`connection_cost = max(best_cost, 50)` and stores the chosen candidate's time
unmodified (no floor is applied to time). -/
theorem resolver_clamp_and_floor {γ : Type} (dist : γ → γ → ℚ)
    (b : Batiment γ) (infra : Infrastructure γ) (gb gi : γ)
    (hb : b.geometry = some gb) (hi : infra.geometry = some gi)
    (hlt : dist gb gi < 1) :
    (candidateCostTime dist b infra).1 = 10 * infra.cost_per_meter ∧
      (candidateCostTime dist b infra).2.1 = 10 * infra.time_per_meter ∧
      ∀ (infras : List (Infrastructure γ)) (best : ℚ × ℚ × String),
        bestCandidate dist b infras = some best →
        (resolveBuilding dist infras b).connection_cost = max best.1 50 ∧
          (resolveBuilding dist infras b).connection_time = best.2.1 := by
  refine ⟨?_, ?_, ?_⟩
  · simp [candidateCostTime, hb, hi, hlt]
  · simp [candidateCostTime, hb, hi, hlt]
  · intro infras best hbest
    unfold resolveBuilding
    rw [hbest]
    exact ⟨rfl, rfl⟩

/-- C3 witness: raw distance 3/5 < 1 clamps to 10, giving cost 5000 and time
20 on an aerial line (500 €/m, 2 h/m), and the stored cost is floored at 50. -/
theorem resolver_clamp_and_floor_witness :
    (candidateCostTime wDist wBat wInfraAerien).1 = 5000 ∧
      (candidateCostTime wDist wBat wInfraAerien).2.1 = 20 ∧
      (resolveBuilding wDist [wInfraAerien] wBat).connection_cost =
        max 5000 50 := by
  have h := resolver_clamp_and_floor wDist wBat wInfraAerien () () rfl rfl
    (by norm_num [wDist])
  refine ⟨h.1.trans ?_, h.2.1.trans ?_, ?_⟩
  · norm_num [wInfraAerien, mkInfrastructure, INFRASTRUCTURE_SPECS]
  · norm_num [wInfraAerien, mkInfrastructure, INFRASTRUCTURE_SPECS]
  · have hbc : bestCandidate wDist wBat [wInfraAerien] = some (5000, 20, "i1") := by
      norm_num [bestCandidate, bestFold, candTriple, candidateCostTime, wDist,
        wBat, wInfraAerien, mkBatiment, mkInfrastructure, INFRASTRUCTURE_SPECS]
    have h2 := (h.2.2 [wInfraAerien] (5000, 20, "i1") hbc).1
    simpa using h2

/-- Known-type per-meter costs are non-negative (500, 750, 900 or the 0
default). -/
lemma specs_cost_nonneg (t : String) :
    0 ≤ ((INFRASTRUCTURE_SPECS t).getD (0, 0)).1 := by
  unfold INFRASTRUCTURE_SPECS
  split_ifs <;> norm_num

/-- A zero per-meter cost can only come from the unknown-type default
`{'cost': 0, 'time': 0}`. -/
lemma specs_cost_zero (t : String)
    (h : ((INFRASTRUCTURE_SPECS t).getD (0, 0)).1 = 0) :
    INFRASTRUCTURE_SPECS t = none := by
  unfold INFRASTRUCTURE_SPECS at h ⊢
  split_ifs at h ⊢ <;>
    simp only [Option.getD_some, Option.getD_none] at h <;>
    first
      | rfl
      | exact absurd h (by norm_num)

/-- Candidate cost and time through one line scale one common positive
distance by the line's per-meter rates, whenever distances are
non-negative. -/
lemma candidate_scale {γ : Type} (dist : γ → γ → ℚ)
    (hd : ∀ x y, 0 ≤ dist x y) (b : Batiment γ) (i : Infrastructure γ) :
    ∃ d : ℚ, 0 < d ∧
      (candidateCostTime dist b i).1 = d * i.cost_per_meter ∧
      (candidateCostTime dist b i).2.1 = d * i.time_per_meter := by
  cases hgi : i.geometry with
  | none =>
      refine ⟨50, by norm_num, ?_, ?_⟩ <;> cases hgb : b.geometry <;>
        simp [candidateCostTime, hgi, hgb]
  | some gi =>
      cases hgb : b.geometry with
      | none =>
          refine ⟨50, by norm_num, ?_, ?_⟩ <;>
            simp [candidateCostTime, hgi, hgb]
      | some gb =>
          by_cases hlt : dist gb gi < 1
          · refine ⟨10, by norm_num, ?_, ?_⟩ <;>
              simp [candidateCostTime, hgi, hgb, hlt]
          · refine ⟨dist gb gi, ?_, ?_, ?_⟩
            · have h0 := hd gb gi
              push_neg at hlt
              linarith
            · simp [candidateCostTime, hgi, hgb, hlt]
            · simp [candidateCostTime, hgi, hgb, hlt]

/-- C10: a line whose `type_infra` is outside the exact spec keys — including
the accented loader default aérien — gets `cost_per_meter = time_per_meter =
0`; every candidate cost through such a line is 0; and whenever such a line
is among the candidates (all built by the constructor, distances
non-negative), the building's final `connection_cost` is floored to exactly
50 with `connection_time = 0`, and the winning line is such a zero-spec
line. -/
theorem unknown_type_line_wins {γ : Type} (dist : γ → γ → ℚ)
    (hd : ∀ x y, 0 ≤ dist x y) (b : Batiment γ)
    (entries : List (String × String × Option γ))
    (hzero : ∃ e ∈ entries, INFRASTRUCTURE_SPECS e.2.1 = none) :
    ((mkInfrastructure γ "i0" "aérien" none).cost_per_meter = 0 ∧
      (mkInfrastructure γ "i0" "aérien" none).time_per_meter = 0) ∧
    (∀ e ∈ entries, INFRASTRUCTURE_SPECS e.2.1 = none →
      (candidateCostTime dist b (mkInfrastructure γ e.1 e.2.1 e.2.2)).1 = 0) ∧
    (resolveBuilding dist
        (entries.map fun e => mkInfrastructure γ e.1 e.2.1 e.2.2)
        b).connection_cost = 50 ∧
    (resolveBuilding dist
        (entries.map fun e => mkInfrastructure γ e.1 e.2.1 e.2.2)
        b).connection_time = 0 ∧
    (∃ e ∈ entries, INFRASTRUCTURE_SPECS e.2.1 = none ∧
      (resolveBuilding dist
          (entries.map fun e => mkInfrastructure γ e.1 e.2.1 e.2.2)
          b).connected_via = some e.1) := by
  have hzerocand : ∀ e ∈ entries, INFRASTRUCTURE_SPECS e.2.1 = none →
      (candidateCostTime dist b (mkInfrastructure γ e.1 e.2.1 e.2.2)).1 = 0 := by
    intro e he hspec
    obtain ⟨d, hd0, hcost, _⟩ :=
      candidate_scale dist hd b (mkInfrastructure γ e.1 e.2.1 e.2.2)
    rw [hcost]
    simp [mkInfrastructure, hspec]
  refine ⟨⟨rfl, rfl⟩, hzerocand, ?_⟩
  cases hentries : entries with
  | nil =>
      obtain ⟨e, he, _⟩ := hzero
      rw [hentries] at he
      simp at he
  | cons e0 rest0 =>
      subst hentries
      obtain ⟨res, hres, k, hk, hkeq, hmin, _⟩ :=
        bestCandidate_cons_spec dist b (mkInfrastructure γ e0.1 e0.2.1 e0.2.2)
          (rest0.map fun e => mkInfrastructure γ e.1 e.2.1 e.2.2)
      have hres' : bestCandidate dist b
          ((e0 :: rest0).map fun e => mkInfrastructure γ e.1 e.2.1 e.2.2) =
          some res := by
        simpa using hres
      -- the zero-spec line bounds the minimum by 0
      obtain ⟨ez, hez, hezspec⟩ := hzero
      have hzmem : mkInfrastructure γ ez.1 ez.2.1 ez.2.2 ∈
          (mkInfrastructure γ e0.1 e0.2.1 e0.2.2) ::
            (rest0.map fun e => mkInfrastructure γ e.1 e.2.1 e.2.2) := by
        have : mkInfrastructure γ ez.1 ez.2.1 ez.2.2 ∈
            (e0 :: rest0).map fun e => mkInfrastructure γ e.1 e.2.1 e.2.2 :=
          List.mem_map.mpr ⟨ez, hez, rfl⟩
        simpa using this
      have hle0 : res.1 ≤ 0 := by
        have := hmin _ hzmem
        rwa [hzerocand ez hez hezspec] at this
      -- the chosen element is the image of some entry
      have hget : ((mkInfrastructure γ e0.1 e0.2.1 e0.2.2) ::
          (rest0.map fun e => mkInfrastructure γ e.1 e.2.1 e.2.2)).get ⟨k, hk⟩ ∈
          (mkInfrastructure γ e0.1 e0.2.1 e0.2.2) ::
            (rest0.map fun e => mkInfrastructure γ e.1 e.2.1 e.2.2) :=
        List.get_mem _ _ hk
      have hgetmap : ((mkInfrastructure γ e0.1 e0.2.1 e0.2.2) ::
          (rest0.map fun e => mkInfrastructure γ e.1 e.2.1 e.2.2)).get ⟨k, hk⟩ ∈
          (e0 :: rest0).map fun e => mkInfrastructure γ e.1 e.2.1 e.2.2 := by
        simp only [List.map_cons]
        exact hget
      obtain ⟨ec, hec, hceq⟩ := List.mem_map.mp hgetmap
      -- scale the chosen candidate
      obtain ⟨d, hd0, hcost, htime⟩ :=
        candidate_scale dist hd b (mkInfrastructure γ ec.1 ec.2.1 ec.2.2)
      have hres1 : res.1 =
          d * (mkInfrastructure γ ec.1 ec.2.1 ec.2.2).cost_per_meter := by
        rw [hkeq, ← hceq]
        exact hcost
      have hres1ge : 0 ≤ res.1 := by
        rw [hres1]
        exact mul_nonneg (le_of_lt hd0)
          (by simpa [mkInfrastructure] using specs_cost_nonneg ec.2.1)
      have hres10 : res.1 = 0 := le_antisymm hle0 hres1ge
      have hcpm0 : (mkInfrastructure γ ec.1 ec.2.1 ec.2.2).cost_per_meter = 0 := by
        rcases mul_eq_zero.mp (hres1 ▸ hres10) with h | h
        · exact absurd h (ne_of_gt hd0)
        · exact h
      have hspec0 : INFRASTRUCTURE_SPECS ec.2.1 = none := by
        apply specs_cost_zero
        simpa [mkInfrastructure] using hcpm0
      have htpm0 : (mkInfrastructure γ ec.1 ec.2.1 ec.2.2).time_per_meter = 0 := by
        simp [mkInfrastructure, hspec0]
      have hres2 : res.2.1 = 0 := by
        rw [hkeq, ← hceq]
        exact htime.trans (by rw [htpm0, mul_zero])
      refine ⟨?_, ?_, ec, hec, hspec0, ?_⟩
      · unfold resolveBuilding
        rw [hres']
        show max res.1 min_connection_cost = 50
        rw [hres10, max_eq_right (by norm_num [min_connection_cost])]
        rfl
      · unfold resolveBuilding
        rw [hres']
        exact hres2
      · unfold resolveBuilding
        rw [hres']
        show some res.2.2 = some ec.1
        rw [hkeq, ← hceq]
        rfl

/-- C10 witness: next to a correctly-keyed aerien line, a line with the
accented default label aérien (unknown spec key, 0 €/m) wins and the
building's cost is floored to 50. -/
theorem unknown_type_line_wins_witness :
    (resolveBuilding wDist7
        (([("i1", "aerien", some ()), ("iz", "aérien", some ())] :
            List (String × String × Option Unit)).map
          fun e => mkInfrastructure Unit e.1 e.2.1 e.2.2)
        wBat).connection_cost = 50 :=
  (unknown_type_line_wins wDist7 (fun _ _ => by norm_num [wDist7]) wBat
      [("i1", "aerien", some ()), ("iz", "aérien", some ())]
      ⟨("iz", "aérien", some ()), by simp, rfl⟩).2.2.1

/-- Once the running cumulative sum is past the limit, the cumsum filter
selects nothing further (costs being non-negative). -/
lemma cumsumSelect_gt (limit : ℚ) :
    ∀ (l : List PhasedRow) (acc : ℚ), (∀ r ∈ l, 0 ≤ r.total_cost) →
      limit < acc → cumsumSelect limit acc l = ([], l) := by
  intro l
  induction l with
  | nil => intro acc _ _; rfl
  | cons r rest ih =>
      intro acc hc hlt
      have hr : 0 ≤ r.total_cost := hc r (List.mem_cons_self _ _)
      have hlt' : limit < acc + r.total_cost := by linarith
      have hrec := ih (acc + r.total_cost)
        (fun x hx => hc x (List.mem_cons_of_mem _ hx)) hlt'
      simp [cumsumSelect, hrec, not_le_of_lt hlt']

/-- With non-negative costs the code's cumsum filter coincides with the
spec's stop-at-first-overflow maximal-prefix selection. -/
lemma cumsumSelect_eq_greedyPrefix (limit : ℚ) :
    ∀ (l : List PhasedRow) (acc : ℚ), (∀ r ∈ l, 0 ≤ r.total_cost) →
      cumsumSelect limit acc l = greedyPrefix limit acc l := by
  intro l
  induction l with
  | nil => intro acc _; rfl
  | cons r rest ih =>
      intro acc hc
      by_cases hle : acc + r.total_cost ≤ limit
      · have hrec := ih (acc + r.total_cost)
          (fun x hx => hc x (List.mem_cons_of_mem _ hx))
        simp [cumsumSelect, greedyPrefix, hle, hrec]
      · have hgt : limit < acc + r.total_cost := lt_of_not_ge hle
        have hsel := cumsumSelect_gt limit rest (acc + r.total_cost)
          (fun x hx => hc x (List.mem_cons_of_mem _ hx)) hgt
        simp [cumsumSelect, greedyPrefix, hle, hsel]

/-- The two halves of the cumsum filter form a permutation of the pool. -/
lemma cumsumSelect_perm (limit : ℚ) :
    ∀ (l : List PhasedRow) (acc : ℚ),
      ((cumsumSelect limit acc l).1 ++ (cumsumSelect limit acc l).2).Perm l := by
  intro l
  induction l with
  | nil => intro acc; simp [cumsumSelect]
  | cons r rest ih =>
      intro acc
      simp only [cumsumSelect]
      by_cases hle : acc + r.total_cost ≤ limit
      · rw [if_pos hle]
        simp only [List.cons_append]
        exact (ih (acc + r.total_cost)).cons r
      · rw [if_neg hle]
        exact List.perm_middle.trans ((ih (acc + r.total_cost)).cons r)

/-- The phase loop computes exactly the spec-side greedy-prefix partition on
a pool of non-negative costs. -/
lemma assignPhases_eq_spec (total : ℚ) :
    ∀ (ps : List (ℕ × ℚ)) (pool : List PhasedRow),
      (∀ r ∈ pool, 0 ≤ r.total_cost) →
      assignPhases total ps pool = phasePartitionSpec total ps pool := by
  intro ps
  induction ps with
  | nil => intro pool _; rfl
  | cons p rest ih =>
      intro pool hc
      obtain ⟨pidx, pct⟩ := p
      have h1 := cumsumSelect_eq_greedyPrefix (total * pct) pool 0 hc
      have hsub : ∀ r ∈ (greedyPrefix (total * pct) 0 pool).2,
          0 ≤ r.total_cost := by
        intro r hr
        rw [← h1] at hr
        exact hc r ((cumsumSelect_perm _ _ _).mem_iff.mp
          (List.mem_append.mpr (Or.inr hr)))
      simp only [assignPhases, phasePartitionSpec, h1, ih _ hsub]

/-- Rows left over by the phase loop keep their (null) phase field. -/
lemma assignPhases_unassigned_phase (total : ℚ) :
    ∀ (ps : List (ℕ × ℚ)) (pool : List PhasedRow),
      (∀ r ∈ pool, r.phase = none) →
      ∀ r ∈ (assignPhases total ps pool).2, r.phase = none := by
  intro ps
  induction ps with
  | nil => intro pool hp r hr; exact hp r hr
  | cons p rest ih =>
      intro pool hp r hr
      obtain ⟨pidx, pct⟩ := p
      simp only [assignPhases] at hr
      exact ih _ (fun x hx => hp x ((cumsumSelect_perm _ _ _).mem_iff.mp
        (List.mem_append.mpr (Or.inr hx)))) r hr

/-- Up to the phase stamps, the phase loop permutes its pool: no row is
dropped or altered. -/
lemma assignPhases_perm (total : ℚ) :
    ∀ (ps : List (ℕ × ℚ)) (pool : List PhasedRow),
      ((((assignPhases total ps pool).1.map Prod.snd).flatten.map stripPhase) ++
        (assignPhases total ps pool).2.map stripPhase).Perm
        (pool.map stripPhase) := by
  intro ps
  induction ps with
  | nil => intro pool; simp [assignPhases]
  | cons p rest ih =>
      intro pool
      obtain ⟨pidx, pct⟩ := p
      have hstamp : stripPhase ∘ (fun r => { r with phase := some pidx }) =
          stripPhase := funext fun r => rfl
      simp only [assignPhases, List.map_cons, List.flatten_cons, List.map_append,
        List.map_map, hstamp, List.append_assoc]
      refine (List.Perm.append_left _ (ih _)).trans ?_
      rw [← List.map_append]
      exact (cumsumSelect_perm _ _ _).map stripPhase

/-- C6: `optimize_phases` puts every hospital-labelled row into phase 0
unconditionally (no cost check); the remaining rows are partitioned by
phases 1..4 with fixed weights 2/5, 1/5, 1/5, 1/5 of the non-hospital total
cost, each phase taking the maximal prefix of the remaining pool whose
phase-local running cost stays within the phase limit (no carry-forward,
since each limit is `total * weight` regardless of earlier spending); rows
left after phase 4 keep a null phase; and no row is dropped. -/
theorem phase_partitioner_spec (rows : List PhasedRow)
    (hc : ∀ r ∈ rows, 0 ≤ r.total_cost) :
    (∀ r ∈ rows, isHospitalLabel r.btype = true →
      { r with phase := some 0 } ∈ (optimize_phases rows).hospital) ∧
    (∀ r ∈ (optimize_phases rows).hospital, r.phase = some 0) ∧
    ((optimize_phases rows).buckets, (optimize_phases rows).unassigned) =
      phasePartitionSpec
        ((((rows.filter fun r => !isHospitalLabel r.btype).map
            fun r => { r with phase := none }).map fun r => r.total_cost).sum)
        [(1, 2/5), (2, 1/5), (3, 1/5), (4, 1/5)]
        ((rows.filter fun r => !isHospitalLabel r.btype).map
          fun r => { r with phase := none }) ∧
    (∀ r ∈ (optimize_phases rows).unassigned, r.phase = none) ∧
    ((optimize_phases rows).hospital.map stripPhase ++
      ((((optimize_phases rows).buckets.map Prod.snd).flatten.map stripPhase) ++
        (optimize_phases rows).unassigned.map stripPhase)).Perm
      (rows.map stripPhase) := by
  have hoth : ∀ r ∈ (rows.filter fun r => !isHospitalLabel r.btype).map
      (fun r => { r with phase := none : PhasedRow }), 0 ≤ r.total_cost := by
    intro r hr
    obtain ⟨r', hr', rfl⟩ := List.mem_map.mp hr
    exact hc r' (List.mem_of_mem_filter hr')
  have hothphase : ∀ r ∈ (rows.filter fun r => !isHospitalLabel r.btype).map
      (fun r => { r with phase := none : PhasedRow }), r.phase = none := by
    intro r hr
    obtain ⟨r', _, rfl⟩ := List.mem_map.mp hr
    rfl
  refine ⟨?_, ?_, ?_, ?_, ?_⟩
  · intro r hr hh
    simp only [optimize_phases]
    exact List.mem_map.mpr ⟨r, List.mem_filter.mpr ⟨hr, hh⟩, rfl⟩
  · intro r hr
    simp only [optimize_phases] at hr
    obtain ⟨r', _, rfl⟩ := List.mem_map.mp hr
    rfl
  · simp only [optimize_phases]
    rw [← assignPhases_eq_spec _ _ _ hoth]
    rfl
  · intro r hr
    simp only [optimize_phases] at hr
    exact assignPhases_unassigned_phase _ PHASES _ hothphase r hr
  · simp only [optimize_phases]
    have hstamp0 : stripPhase ∘ (fun r => { r with phase := some 0 : PhasedRow }) =
        stripPhase := funext fun r => rfl
    have hstripnone : stripPhase ∘ (fun r => { r with phase := none : PhasedRow }) =
        stripPhase := funext fun r => rfl
    rw [List.map_map, hstamp0]
    refine (List.Perm.append_left _ (assignPhases_perm _ PHASES _)).trans ?_
    rw [List.map_map, hstripnone, ← List.map_append]
    exact (List.filter_append_perm _ rows).map stripPhase

/-- C6 witness: one hospital plus the spec's worked pool of costs
100, 50, 250 — the hospital row lands in phase 0. -/
theorem phase_partitioner_spec_witness :
    ({ wHosp with phase := some 0 } : PhasedRow) ∈
      (optimize_phases [wHosp, wRow100, wRow50, wRow250]).hospital :=
  (phase_partitioner_spec [wHosp, wRow100, wRow50, wRow250]
      (by intro r hr
          fin_cases hr <;> norm_num [wHosp, wRow100, wRow50, wRow250])).1
    wHosp (by simp) (by decide)

end GridPlan
